import Mathlib

/-!
Verification of the transaction-processor core: the two deterministic-2PL lock
managers (`lock_manager.cc`), and the OCC / parallel-OCC schedulers and
validator (`txn_processor.cc`).  C++ `std::map` / `std::deque` state is embedded
as association lists and plain lists; transactions referenced by pointer in the
source are referenced here by a numeric handle.
-/

set_option maxRecDepth 10000

namespace TxnCC

abbrev Key := Nat
abbrev TxnId := Nat
abbrev Value := Nat

/-- `enum LockMode` (UNLOCKED is only a `Status` result and is not needed). -/
inductive LockMode
  | SHARED
  | EXCLUSIVE
deriving DecidableEq, Repr

/-- `struct LockRequest { LockMode mode_; Txn* txn_; }`. -/
structure LockRequest where
  mode : LockMode
  txn : TxnId
deriving DecidableEq, Repr

/-- Association-list lookup, modelling `std::map::find` / presence testing. -/
def alookup {α β : Type} [DecidableEq α] (m : List (α × β)) (k : α) : Option β :=
  match m with
  | [] => none
  | (a, b) :: rest => if a = k then some b else alookup rest k

/-- Association-list update, modelling `std::map::operator[] = v`. -/
def aset {α β : Type} [DecidableEq α] (m : List (α × β)) (k : α) (v : β) :
    List (α × β) :=
  match m with
  | [] => [(k, v)]
  | (a, b) :: rest => if a = k then (k, v) :: rest else (a, b) :: aset rest k v

/-- Shared state of `LockManagerA` / `LockManagerB`: the per-key request queues
(`lock_table_`), the wait counters (`txn_waits_`, C++ `int` values, so `Int`
here, with `operator[]` value-initializing absent entries to 0), and the ready
list (`ready_txns_`). -/
structure LockManager where
  lock_table : List (Key × List LockRequest)
  txn_waits : List (TxnId × Int)
  ready_txns : List TxnId
deriving DecidableEq, Repr

/-- The queue for `key` (empty when the key has no entry yet). -/
def queueOf (s : LockManager) (key : Key) : List LockRequest :=
  (alookup s.lock_table key).getD []

/-- The wait-counter update run when a request is not immediately granted:
`if (txn_waits_.count(txn)) txn_waits_[txn] = 1; else txn_waits_[txn]++;`
(in the else branch `operator[]` creates the entry as 0 before the increment). -/
def waitsBump (w : List (TxnId × Int)) (txn : TxnId) : List (TxnId × Int) :=
  match alookup w txn with
  | some _ => aset w txn 1
  | none => aset w txn (0 + 1)

/-- `--txn_waits_[t]`: decrement (creating an absent entry as 0 first) and
return the new map together with the resulting value. -/
def waitsDec (w : List (TxnId × Int)) (txn : TxnId) :
    List (TxnId × Int) × Int :=
  let v := (alookup w txn).getD 0 - 1
  (aset w txn v, v)

/-- `if (--txn_waits_[t] == 0) ready_txns_->push_back(t);` -/
def wakeOne (s : LockManager) (txn : TxnId) : LockManager :=
  let (w, v) := waitsDec s.txn_waits txn
  if v = 0 then { s with txn_waits := w, ready_txns := s.ready_txns ++ [txn] }
  else { s with txn_waits := w }

/-- Decrement-and-maybe-ready each request of a run in order (the inner `for j`
loop of `LockManagerB::Release`). -/
def wakeRun (s : LockManager) (run : List LockRequest) : LockManager :=
  run.foldl (fun s r => wakeOne s r.txn) s

/-- Append a request to `key`'s queue, creating the queue when absent (the
`if (lock_table_.count(key)) ... else ...` pattern of every lock method).
Returns the updated table together with the new queue. -/
def appendRequest (table : List (Key × List LockRequest)) (key : Key)
    (l : LockRequest) : List (Key × List LockRequest) × List LockRequest :=
  let q := match alookup table key with
    | some q => q ++ [l]
    | none => [l]
  (aset table key q, q)

/-- Index of the first request of `txn` in a queue (the `for` scan of both
`Release` implementations). -/
def findTxn (q : List LockRequest) (txn : TxnId) : Option Nat :=
  match q with
  | [] => none
  | r :: rest =>
    if r.txn = txn then some 0 else (findTxn rest txn).map (· + 1)

/-! ### LockManagerA (exclusive-only) -/

/-- `LockManagerA::WriteLock`: append an EXCLUSIVE request; granted iff the
queue now has size 1; otherwise bump the wait counter. -/
def lmaWriteLock (s : LockManager) (txn : TxnId) (key : Key) :
    LockManager × Bool :=
  let (table, q) := appendRequest s.lock_table key ⟨LockMode.EXCLUSIVE, txn⟩
  if q.length = 1 then
    ({ s with lock_table := table }, true)
  else
    ({ s with lock_table := table, txn_waits := waitsBump s.txn_waits txn },
      false)

/-- `LockManagerA::ReadLock` simply calls `WriteLock`. -/
def lmaReadLock (s : LockManager) (txn : TxnId) (key : Key) :
    LockManager × Bool :=
  lmaWriteLock s txn key

/-- `LockManagerA::Release`: remove `txn`'s first request; `hadLock` records
whether it was the queue head; if so and the queue is still nonempty, decrement
the new head's counter and ready it at zero.  (When `txn` is not present the
source reads an uninitialized flag; no removal happens and we take the wakeup
branch as not executed.) -/
def lmaRelease (s : LockManager) (txn : TxnId) (key : Key) : LockManager :=
  let q := queueOf s key
  match findTxn q txn with
  | none => { s with lock_table := aset s.lock_table key q }
  | some i =>
    let hadLock : Bool := (q.head?.map LockRequest.txn) = some txn
    let q' := q.eraseIdx i
    let s' :=
      if hadLock then
        match q'.head? with
        | some r => wakeOne s r.txn
        | none => s
      else s
    { s' with lock_table := aset s'.lock_table key q' }

/-! ### LockManagerB (shared/exclusive) -/

/-- `LockManagerB::WriteLock`: append an EXCLUSIVE request; granted iff the
queue front's transaction is `txn`; otherwise bump the wait counter. -/
def lmbWriteLock (s : LockManager) (txn : TxnId) (key : Key) :
    LockManager × Bool :=
  let (table, q) := appendRequest s.lock_table key ⟨LockMode.EXCLUSIVE, txn⟩
  if (q.head?.map LockRequest.txn) = some txn then
    ({ s with lock_table := table }, true)
  else
    ({ s with lock_table := table, txn_waits := waitsBump s.txn_waits txn },
      false)

/-- `LockManagerB::ReadLock`: append a SHARED request; the `for` scan returns
false (bumping the wait counter) as soon as any EXCLUSIVE request is found in
the queue, and true otherwise. -/
def lmbReadLock (s : LockManager) (txn : TxnId) (key : Key) :
    LockManager × Bool :=
  let (table, q) := appendRequest s.lock_table key ⟨LockMode.SHARED, txn⟩
  if q.any (fun r => r.mode == LockMode.EXCLUSIVE) then
    ({ s with lock_table := table, txn_waits := waitsBump s.txn_waits txn },
      false)
  else
    ({ s with lock_table := table }, true)

/-- The guard of the `_ES` / `SES` branch of `LockManagerB::Release`:
`(i->mode_ == EXCLUSIVE) && ((atStart && (i+1)->mode_ == SHARED) ||
((!atStart && (i-1)->mode_ == SHARED) && ((i+1)->mode_ == SHARED)))`. -/
def sesCond (q : List LockRequest) (i : Nat) (nxt : LockRequest) : Prop :=
  (q[i]?.map LockRequest.mode) = some LockMode.EXCLUSIVE ∧
    ((i = 0 ∧ nxt.mode = LockMode.SHARED) ∨
      (¬i = 0 ∧ (q[i-1]?.map LockRequest.mode) = some LockMode.SHARED ∧
        nxt.mode = LockMode.SHARED))

instance (q : List LockRequest) (i : Nat) (nxt : LockRequest) :
    Decidable (sesCond q i nxt) := by
  unfold sesCond; infer_instance

/-- The wakeup work of `LockManagerB::Release` once `txn` was found at index
`i` (performed before the erase): nothing if the found request is last;
otherwise the `_SE`/`_EE` branch wakes the successor when the request was at
the head and the successor is EXCLUSIVE, and the `_ES`/`SES` branch wakes the
maximal SHARED run after the request. -/
def lmbWake (s : LockManager) (q : List LockRequest) (i : Nat) : LockManager :=
  match q[i+1]? with
  | none => s
  | some nxt =>
    let s' :=
      if i = 0 ∧ nxt.mode = LockMode.EXCLUSIVE then wakeOne s nxt.txn else s
    if sesCond q i nxt then
      wakeRun s' ((q.drop (i+1)).takeWhile (fun r => r.mode == LockMode.SHARED))
    else s'

/-- `LockManagerB::Release`: find `txn`'s first request, run the wakeup rule,
then erase the request. -/
def lmbRelease (s : LockManager) (txn : TxnId) (key : Key) : LockManager :=
  let q := queueOf s key
  match findTxn q txn with
  | none => { s with lock_table := aset s.lock_table key q }
  | some i =>
    let s' := lmbWake s q i
    { s' with lock_table := aset s'.lock_table key (q.eraseIdx i) }

/-! ### Transaction processor data model (`txn_processor.cc`, `txn.h`) -/

/-- `enum TxnStatus`. -/
inductive TxnStatus
  | INCOMPLETE
  | COMPLETED_C
  | COMPLETED_A
  | COMMITTED
  | ABORTED
deriving DecidableEq, Repr

/-- The transaction record as the scheduler sees it (`class Txn`): id, declared
read/write sets, the cached reads and buffered writes, status, and the OCC
admission timestamp.  Timestamps are `Nat` stand-ins for the monotone clock. -/
structure Txn where
  unique_id : Nat
  readset : List Key
  writeset : List Key
  reads : List (Key × Value)
  writes : List (Key × Value)
  status : TxnStatus
  occ_start_time : Nat
deriving DecidableEq, Repr

/-- Modelled from the spec: the storage backend (`Storage`) is external to the
repository sources; per §6 it keeps a value and a last-write timestamp per key,
`Timestamp` returning a sentinel earlier than any `occ_start_time` (0 here) for
absent keys, and `Write` stamping the key with the current clock. -/
structure Storage where
  data : List (Key × Value)
  ts : List (Key × Nat)
deriving DecidableEq, Repr

/-- Modelled from the spec: `Storage::Read` — the value if the key exists. -/
def storageRead (st : Storage) (k : Key) : Option Value :=
  alookup st.data k

/-- Modelled from the spec: `Storage::Timestamp` — last-write time, sentinel 0
when the key is absent. -/
def storageTimestamp (st : Storage) (k : Key) : Nat :=
  (alookup st.ts k).getD 0

/-- Modelled from the spec: `Storage::Write` at clock value `now`. -/
def storageWrite (st : Storage) (k : Key) (v : Value) (now : Nat) : Storage :=
  { data := aset st.data k v, ts := aset st.ts k now }

/-- `TxnProcessor::ApplyWrites`: write the buffered writes out to storage (all
at the current clock `now`), then set the status to COMMITTED. -/
def applyWrites (st : Storage) (t : Txn) (now : Nat) : Storage × Txn :=
  (t.writes.foldl (fun acc kv => storageWrite acc kv.1 kv.2 now) st,
    { t with status := TxnStatus.COMMITTED })

/-- The processor state touched by `NewTxnRequest` and the OCC scheduler:
the request queue, the result queue, the id counter, and storage. -/
structure ProcState where
  txn_requests : List Txn
  txn_results : List Txn
  next_unique_id : Nat
  storage : Storage
deriving DecidableEq, Repr

/-- `TxnProcessor::NewTxnRequest`: under the mutex, assign the next unique id
to the transaction and push it onto the request queue. -/
def newTxnRequest (s : ProcState) (t : Txn) : ProcState :=
  let t' := { t with unique_id := s.next_unique_id }
  { s with
    next_unique_id := s.next_unique_id + 1
    txn_requests := s.txn_requests ++ [t'] }

/-- A sequence of `NewTxnRequest` calls in call order (the mutex serializes
concurrent callers into exactly such a sequence). -/
def runRequests (s : ProcState) (ts : List Txn) : ProcState :=
  ts.foldl newTxnRequest s

/-- The prefetch loops of `TxnProcessor::ExecuteTxn` over one key set: cache
`reads[key]` iff the record exists in storage. -/
def prefetch (st : Storage) (ks : List Key) (acc : List (Key × Value)) :
    List (Key × Value) :=
  ks.foldl (fun m k =>
    match storageRead st k with
    | some v => aset m k v
    | none => m) acc

/-- `TxnProcessor::ExecuteTxn`: wipe `reads_` and `writes_`, prefetch the
readset then the writeset from storage, run the user program (modelled as a
function from the cached reads to the buffered writes and a completion
status), and hand the transaction back. -/
def executeTxn (st : Storage)
    (run : List (Key × Value) → List (Key × Value) × TxnStatus) (t : Txn) :
    Txn :=
  let rd := prefetch st t.writeset (prefetch st t.readset [])
  let (ws, stat) := run rd
  { t with reads := rd, writes := ws, status := stat }

/-- The admission step of the OCC schedulers on a popped request:
`txn->occ_start_time_ = GetTime();`. -/
def occStamp (t : Txn) (now : Nat) : Txn :=
  { t with occ_start_time := now }

/-- The validation scan of `RunOCCScheduler` for one transaction: the readset
loop then the writeset loop, each breaking (clearing `verified`) at the first
key whose storage timestamp is newer than `occ_start_time`. -/
def occCheckTxn (st : Storage) (t : Txn) : Bool :=
  t.readset.all (fun k => decide (storageTimestamp st k ≤ t.occ_start_time)) &&
    t.writeset.all (fun k => decide (storageTimestamp st k ≤ t.occ_start_time))

/-- The completed-transactions drain of `RunOCCScheduler`, threading the
`verified` flag exactly as the source does: `bool verified = true;` runs once
before the `while (completed_txns_.Pop(&txn))` loop, and no iteration resets
it.  Failed COMPLETED_C transactions are re-enqueued through `NewTxnRequest`
(`continue` skips the result push); an invalid status `DIE`s (`none`). -/
def occDrainGo (now : Nat) : Bool → ProcState → List Txn → Option ProcState
  | _, s, [] => some s
  | verified, s, t :: rest =>
    let v := verified && occCheckTxn s.storage t
    if t.status = TxnStatus.COMPLETED_C then
      if v then
        let (st', t') := applyWrites s.storage t now
        occDrainGo now v
          { s with storage := st', txn_results := s.txn_results ++ [t'] } rest
      else
        occDrainGo now v (newTxnRequest s t) rest
    else if t.status = TxnStatus.COMPLETED_A then
      occDrainGo now v
        { s with
          txn_results := s.txn_results ++ [{ t with status := TxnStatus.ABORTED }] }
        rest
    else none

/-- One `RunOCCScheduler` drain of the given completion-queue contents. -/
def occDrain (now : Nat) (s : ProcState) (completed : List Txn) :
    Option ProcState :=
  occDrainGo now true s completed

/-! ### Parallel-OCC validator (`TxnProcessor::ValidateTxn`) -/

/-- `TxnProcessor::ValidateTxn`, run against storage `st` with clock `now`:
asserts the snapshot excludes the transaction (`none` models the assertion
firing); a COMPLETED_A transaction is marked ABORTED and posted with success;
anything other than COMPLETED_C `DIE`s; otherwise `verified` is the readset
timestamp scan (the writeset scan is commented out in the source) folded with
the active-set overlap scan, writes are applied exactly when `verified`, and
`(txn, verified)` is posted.  Returns the new storage, the transaction as
left behind, and the posted pair. -/
def validateTxn (st : Storage) (t : Txn) (active_set_copy : List Txn)
    (now : Nat) : Option (Storage × Txn × (Txn × Bool)) :=
  if t ∈ active_set_copy then none
  else if t.status = TxnStatus.COMPLETED_A then
    let t' := { t with status := TxnStatus.ABORTED }
    some (st, t', (t', true))
  else if ¬t.status = TxnStatus.COMPLETED_C then none
  else
    let v1 := t.readset.all
      (fun k => decide (storageTimestamp st k ≤ t.occ_start_time))
    let v2 := active_set_copy.foldl
      (fun v u => t.writeset.foldl
        (fun v k => v && !(decide (k ∈ u.writeset ∨ k ∈ u.readset))) v) v1
    if v2 then
      let (st', t') := applyWrites st t now
      some (st', t', (t', true))
    else some (st, t, (t, false))

/-! ### Parallel-OCC scheduler (`TxnProcessor::RunOCCParallelScheduler`)

Transactions live in the scheduler's queues as `Txn*` pointers; the numeric
handle `TxnId` plays the role of the pointer here. -/

/-- Batch size `N` (`#define N 200`). -/
def nBatch : Nat := 200

/-- Batch size `M` (`#define M 200`). -/
def mBatch : Nat := 200

/-- A bounded drain `while (queue.Pop(&x) && i++ < n) body;` starting at
counter value `i`: returns the items the body ran for and what is left in the
queue.  Note the source pops before testing the bound, so the item popped on
the iteration where `i++ < n` first fails is neither processed nor left in
the queue. -/
def boundedDrain {α : Type} (n : Nat) : Nat → List α → List α × List α
  | _, [] => ([], [])
  | i, x :: rest =>
    if i < n then
      let (p, r) := boundedDrain n (i + 1) rest
      (x :: p, r)
    else ([], rest)

/-- `std::set::insert` on the active set (kept as a duplicate-free list). -/
def insertIfAbsent (l : List TxnId) (t : TxnId) : List TxnId :=
  if t ∈ l then l else l ++ [t]

/-- The scheduler-side state of the parallel-OCC pipeline, plus the work in
flight on the thread pool: `requests` (`txn_requests_`), `executing`
(transactions handed to `ExecuteTxn` tasks), `completed` (`completed_txns_`),
`active_set` (`active_set_`), `validating` (dispatched `ValidateTxn` tasks,
each carrying the active-set copy it was parameterized with), `validated`
(`validated_txns_`) and `results` (`txn_results_`). -/
structure SchedState where
  requests : List TxnId
  executing : List TxnId
  completed : List TxnId
  active_set : List TxnId
  validating : List (TxnId × List TxnId)
  validated : List (TxnId × Bool)
  results : List TxnId
deriving DecidableEq, Repr

/-- The body of the completion drain for one popped transaction (lines
246-252): copy the active set, insert the transaction, dispatch `ValidateTxn`
parameterized by the copy. -/
def dispatchValidation (s : SchedState) (t : TxnId) : SchedState :=
  { s with
    active_set := insertIfAbsent s.active_set t
    validating := s.validating ++ [(t, s.active_set)] }

/-- The completion drain `while (completed_txns_.Pop(&txn) && i++ < N)` of one
scheduler iteration, applied to the current completion-queue contents. -/
def poccProcessCompleted (s : SchedState) : SchedState :=
  let (processed, rest) := boundedDrain nBatch 0 s.completed
  { processed.foldl dispatchValidation s with completed := rest }

/-- The body of the validated drain for one popped pair (lines 258-267):
erase from the active set, then either re-enqueue (`!p.second`) or post the
result. -/
def drainValidatedOne (s : SchedState) (p : TxnId × Bool) : SchedState :=
  let s' := { s with active_set := s.active_set.erase p.1 }
  if p.2 then { s' with results := s'.results ++ [p.1] }
  else { s' with requests := s'.requests ++ [p.1] }

/-- The validated drain `while (validated_txns_.Pop(&p) && j++ < M)` of one
scheduler iteration, applied to the current validated-queue contents. -/
def poccProcessValidated (s : SchedState) : SchedState :=
  let (processed, rest) := boundedDrain mBatch 0 s.validated
  { processed.foldl drainValidatedOne s with validated := rest }

/-- One atomic event of the parallel-OCC pipeline.  The scheduler steps are
the individual loop-body executions of `RunOCCParallelScheduler` (including
the pops whose batch-bound test fails, which discard the popped element); the
worker steps are an `ExecuteTxn` task finishing (pushing to `completed_txns_`)
and a `ValidateTxn` task finishing (pushing its verdict to
`validated_txns_`). -/
inductive PStep : SchedState → SchedState → Prop where
  | popRequest (s : SchedState) (t : TxnId) (rest : List TxnId)
      (h : s.requests = t :: rest) :
      PStep s { s with requests := rest, executing := s.executing ++ [t] }
  | complete (s : SchedState) (t : TxnId) (l₁ l₂ : List TxnId)
      (h : s.executing = l₁ ++ t :: l₂) :
      PStep s
        { s with executing := l₁ ++ l₂, completed := s.completed ++ [t] }
  | dispatch (s : SchedState) (t : TxnId) (rest : List TxnId)
      (h : s.completed = t :: rest) :
      PStep s { dispatchValidation s t with completed := rest }
  | dropCompleted (s : SchedState) (t : TxnId) (rest : List TxnId)
      (h : s.completed = t :: rest) :
      PStep s { s with completed := rest }
  | finishVal (s : SchedState) (t : TxnId) (snap : List TxnId) (flag : Bool)
      (l₁ l₂ : List (TxnId × List TxnId))
      (h : s.validating = l₁ ++ (t, snap) :: l₂) :
      PStep s
        { s with
          validating := l₁ ++ l₂, validated := s.validated ++ [(t, flag)] }
  | drainVal (s : SchedState) (p : TxnId × Bool) (rest : List (TxnId × Bool))
      (h : s.validated = p :: rest) :
      PStep s { drainValidatedOne s p with validated := rest }
  | dropValidated (s : SchedState) (p : TxnId × Bool)
      (rest : List (TxnId × Bool)) (h : s.validated = p :: rest) :
      PStep s { s with validated := rest }

/-- Every location a transaction handle can occupy in the pipeline (the
active set is not a location: it is bookkeeping over `validating` and
`validated`). -/
def SchedState.locIds (s : SchedState) : List TxnId :=
  s.requests ++ s.executing ++ s.completed ++ s.validating.map Prod.fst ++
    s.validated.map Prod.fst

/-- The pipeline invariant: a handle occupies at most one location at a time,
the active set is duplicate-free, nothing in the request / executing /
completion stages is in the active set, and every dispatched validation
task's snapshot excludes its own transaction. -/
def SchedInv (s : SchedState) : Prop :=
  s.locIds.Nodup ∧ s.active_set.Nodup ∧
    (∀ t ∈ s.requests ++ s.executing ++ s.completed, t ∉ s.active_set) ∧
    ∀ p ∈ s.validating, p.1 ∉ p.2

instance (s : SchedState) : Decidable (SchedInv s) := by
  unfold SchedInv; infer_instance

/-! ### Scheduler dispatch (`TxnProcessor::RunScheduler`) -/

/-- `enum CCMode`. -/
inductive CCMode
  | SERIAL
  | LOCKING_EXCLUSIVE_ONLY
  | LOCKING
  | OCC
  | P_OCC
deriving DecidableEq, Repr

/-- The five scheduler-loop bodies a case of the dispatch switch can invoke. -/
inductive SchedLoop
  | serialLoop
  | lockingLoop
  | occLoop
  | occParallelLoop
deriving DecidableEq, Repr

/-- The cases of the `switch (mode_)` in `RunScheduler`, in source order. -/
def schedulerCases : List (CCMode × SchedLoop) :=
  [(CCMode.SERIAL, SchedLoop.serialLoop),
   (CCMode.LOCKING, SchedLoop.lockingLoop),
   (CCMode.LOCKING_EXCLUSIVE_ONLY, SchedLoop.lockingLoop),
   (CCMode.OCC, SchedLoop.occLoop),
   (CCMode.P_OCC, SchedLoop.occParallelLoop)]

/-- `TxnProcessor::RunScheduler`: the switch has no `break` statements, so
control enters at the matching case and falls through every later case; the
result is the sequence of scheduler loops actually invoked. -/
def runScheduler (m : CCMode) : List SchedLoop :=
  (schedulerCases.dropWhile (fun c => c.1 != m)).map Prod.snd

/-! ### Helper lemmas -/

theorem alookup_aset {α β : Type} [DecidableEq α] (m : List (α × β)) (k : α)
    (v : β) : alookup (aset m k v) k = some v := by
  induction m with
  | nil => simp [aset, alookup]
  | cons p rest ih =>
    by_cases h : p.1 = k <;> simp [aset, alookup, h, ih]

theorem foldl_band {α : Type} (f : α → Bool) :
    ∀ (l : List α) (v : Bool),
      l.foldl (fun b x => b && f x) v = (v && l.all f)
  | [], v => by simp
  | x :: l, v => by
    simp [List.foldl_cons, List.all_cons, foldl_band f l, Bool.and_assoc]

theorem lockMode_eq_shared {m : LockMode} :
    ¬m = LockMode.EXCLUSIVE ↔ m = LockMode.SHARED := by
  cases m <;> simp

theorem findTxn_head_ne {q : List LockRequest} {txn : TxnId} {i : Nat}
    (h : findTxn q txn = some i) (hi : i ≠ 0) :
    ¬(q.head?.map LockRequest.txn) = some txn := by
  cases q with
  | nil => simp [findTxn] at h
  | cons r rest =>
    by_cases hr : r.txn = txn
    · simp [findTxn, hr] at h
      exact absurd h.symm hi
    · simpa using hr

theorem appendRequest_eq (table : List (Key × List LockRequest)) (key : Key)
    (l : LockRequest) :
    appendRequest table key l =
      (aset table key ((alookup table key).getD [] ++ [l]),
        (alookup table key).getD [] ++ [l]) := by
  unfold appendRequest
  cases h : alookup table key <;> simp [h]

/-! ### C1 -/

/-- C1: the stored wait counter should equal the number of queues in which the
transaction's request is still blocked, so a transaction blocked on two keys
should have counter 2 and be readied only when unblocked everywhere.  The
source's increment (`if (txn_waits_.count(txn)) txn_waits_[txn] = 1; else
txn_waits_[txn]++;`) leaves the counter at 1 on the second block: here
transaction 5 blocks behind 1 on key 1 and behind 2 on key 2, its counter is
1 rather than 2, and the release of key 1 alone already appends 5 to the
ready list although its request on key 2 is still queued behind
transaction 2. -/
theorem c1_waitCounter_code_bug :
    let s4 : LockManager :=
      (lmaWriteLock
        ((lmaWriteLock ((lmaWriteLock ((lmaWriteLock ⟨[], [], []⟩ 1 1).1)
          2 2).1) 5 1).1) 5 2).1
    alookup s4.txn_waits 5 = some 1 ∧
    (lmaRelease s4 1 1).ready_txns = [5] ∧
    alookup (lmaRelease s4 1 1).lock_table 2 =
      some [⟨LockMode.EXCLUSIVE, 2⟩, ⟨LockMode.EXCLUSIVE, 5⟩] := by
  decide

/-! ### C2 -/

/-- C2: under the OCC scheduler each drained transaction should be validated
against its own read and write sets alone.  In the source, `bool verified =
true` is initialized once per scheduler iteration, before the completion
drain, and never reset between drained transactions, so one failed validation
forces the re-enqueue of every later COMPLETED_C transaction in the same
drain: here `t2`'s own keys all pass the timestamp check
(`occCheckTxn … = true`) yet after draining `[t1, t2]` both transactions are
re-enqueued and nothing is committed or posted. -/
theorem c2_occ_sticky_verified_code_bug :
    let st : Storage := ⟨[(10, 0)], [(10, 5)]⟩
    let t1 : Txn := ⟨7, [10], [], [], [], TxnStatus.COMPLETED_C, 3⟩
    let t2 : Txn := ⟨8, [20], [20], [], [(20, 1)], TxnStatus.COMPLETED_C, 3⟩
    occCheckTxn st t2 = true ∧
    occDrain 9 ⟨[], [], 100, st⟩ [t1, t2] =
      some ⟨[{ t1 with unique_id := 100 }, { t2 with unique_id := 101 }],
        [], 102, st⟩ := by
  decide

/-! ### C4 -/

/-- C4: every transaction removed from the completion (resp. validated) queue
should be dispatched (resp. processed), with at most the batch size removed
per iteration.  The source's drain condition `Pop(&txn) && i++ < N` pops
before testing the bound, so with 201 queued items the scheduler removes 201,
dispatches only 200, and silently discards item 200 (likewise for the
validated drain): its result can then never be posted. -/
theorem c4_bounded_drain_code_bug :
    poccProcessCompleted ⟨[], [], List.range 201, [], [], [], []⟩ =
      ⟨[], [], [], List.range 200,
        (List.range 200).map (fun k => (k, List.range k)), [], []⟩ ∧
    (200 : TxnId) ∉
      ((poccProcessCompleted
        ⟨[], [], List.range 201, [], [], [], []⟩).validating.map Prod.fst) ∧
    poccProcessValidated
        ⟨[], [], [], [], [], (List.range 201).map (fun k => (k, true)), []⟩ =
      ⟨[], [], [], [], [], [], List.range 200⟩ ∧
    (200 : TxnId) ∉
      (poccProcessValidated
        ⟨[], [], [], [], [],
          (List.range 201).map (fun k => (k, true)), []⟩).results := by
  refine ⟨by decide, ?_, by decide, ?_⟩ <;> decide

/-! ### C5 -/

/-- C5: the scheduler thread should execute exactly the scheduler loop of the
constructed mode.  The dispatch switch of `RunScheduler` has no `break`
statements, so control falls through every later case: a SERIAL processor
invokes the serial loop and then the locking loop (twice), the OCC loop and
the parallel-OCC loop; only P_OCC gets a single loop. -/
theorem c5_scheduler_fallthrough_code_bug :
    runScheduler CCMode.SERIAL =
      [SchedLoop.serialLoop, SchedLoop.lockingLoop, SchedLoop.lockingLoop,
        SchedLoop.occLoop, SchedLoop.occParallelLoop] ∧
    runScheduler CCMode.LOCKING =
      [SchedLoop.lockingLoop, SchedLoop.lockingLoop, SchedLoop.occLoop,
        SchedLoop.occParallelLoop] ∧
    runScheduler CCMode.LOCKING_EXCLUSIVE_ONLY =
      [SchedLoop.lockingLoop, SchedLoop.occLoop,
        SchedLoop.occParallelLoop] ∧
    runScheduler CCMode.OCC = [SchedLoop.occLoop, SchedLoop.occParallelLoop] ∧
    runScheduler CCMode.P_OCC = [SchedLoop.occParallelLoop] := by
  decide

/-! ### C3 -/

/-- C3 counterexample: a transaction that fails OCC validation is restarted
through `NewTxnRequest`, which reassigns `unique_id_` from the shared counter,
so the fresh attempt does NOT keep the unique id of the original attempt; the
plain-OCC restart path also leaves the status at COMPLETED_C (only P_OCC
resets it to INCOMPLETE) and the stale reads/writes are still attached at
re-enqueue time.  Transaction 7 fails its own timestamp check and is
re-enqueued with unique id 42 ≠ 7 and status COMPLETED_C. -/
theorem c3_restart_identity_counterexample :
    let st : Storage := ⟨[(1, 0)], [(1, 9)]⟩
    let t : Txn := ⟨7, [1], [], [(1, 0)], [(1, 4)], TxnStatus.COMPLETED_C, 3⟩
    occDrain 11 ⟨[], [], 42, st⟩ [t] =
      some ⟨[{ t with unique_id := 42 }], [], 43, st⟩ ∧
    (42 : Nat) ≠ 7 ∧
    ({ t with unique_id := 42 } : Txn).status ≠ TxnStatus.INCOMPLETE ∧
    ({ t with unique_id := 42 } : Txn).writes ≠ [] := by
  decide

/-- C3 as amended: a restarted transaction is the same transaction object but
is re-enqueued through `NewTxnRequest`, which assigns it a fresh unique id
(strictly greater than the id of any earlier request, in particular its own
previous id); the P_OCC restart path resets the status to INCOMPLETE first
while the plain-OCC path re-enqueues with the status untouched; a new
`occ_start_time` is stamped at re-admission; and `reads`/`writes` are wiped
and rebuilt only when the attempt is next executed. -/
theorem c3_restart_amended (s : ProcState) (t : Txn) (now : Nat) (st : Storage)
    (run : List (Key × Value) → List (Key × Value) × TxnStatus)
    (hid : t.unique_id < s.next_unique_id) :
    (newTxnRequest s t).txn_requests =
      s.txn_requests ++ [{ t with unique_id := s.next_unique_id }] ∧
    t.unique_id < ({ t with unique_id := s.next_unique_id } : Txn).unique_id ∧
    (newTxnRequest s t).next_unique_id = s.next_unique_id + 1 ∧
    (newTxnRequest s { t with status := TxnStatus.INCOMPLETE }).txn_requests =
      s.txn_requests ++
        [{ t with
            status := TxnStatus.INCOMPLETE,
            unique_id := s.next_unique_id }] ∧
    (occStamp t now).occ_start_time = now ∧
    executeTxn st run t =
      { t with
        reads := prefetch st t.writeset (prefetch st t.readset []),
        writes := (run (prefetch st t.writeset (prefetch st t.readset []))).1,
        status :=
          (run (prefetch st t.writeset (prefetch st t.readset []))).2 } := by
  refine ⟨rfl, hid, rfl, rfl, rfl, rfl⟩

/-- Witness for `c3_restart_amended` at a concrete state and transaction. -/
theorem c3_restart_amended_witness :
    (newTxnRequest ⟨[], [], 42, ⟨[], []⟩⟩
        ⟨7, [1], [], [], [], TxnStatus.COMPLETED_C, 3⟩).txn_requests =
      [] ++ [{ (⟨7, [1], [], [], [], TxnStatus.COMPLETED_C, 3⟩ : Txn) with
        unique_id := 42 }] ∧
    (7 : Nat) <
      ({ (⟨7, [1], [], [], [], TxnStatus.COMPLETED_C, 3⟩ : Txn) with
        unique_id := 42 } : Txn).unique_id ∧
    (newTxnRequest ⟨[], [], 42, ⟨[], []⟩⟩
        ⟨7, [1], [], [], [], TxnStatus.COMPLETED_C, 3⟩).next_unique_id =
      42 + 1 ∧
    (newTxnRequest ⟨[], [], 42, ⟨[], []⟩⟩
        { (⟨7, [1], [], [], [], TxnStatus.COMPLETED_C, 3⟩ : Txn) with
          status := TxnStatus.INCOMPLETE }).txn_requests =
      [] ++ [{ (⟨7, [1], [], [], [], TxnStatus.COMPLETED_C, 3⟩ : Txn) with
        status := TxnStatus.INCOMPLETE,
        unique_id := 42 }] ∧
    (occStamp ⟨7, [1], [], [], [], TxnStatus.COMPLETED_C, 3⟩
        11).occ_start_time = 11 ∧
    executeTxn ⟨[], []⟩ (fun rd => (rd, TxnStatus.COMPLETED_C))
        ⟨7, [1], [], [], [], TxnStatus.COMPLETED_C, 3⟩ =
      { (⟨7, [1], [], [], [], TxnStatus.COMPLETED_C, 3⟩ : Txn) with
        reads := prefetch ⟨[], []⟩ [] (prefetch ⟨[], []⟩ [1] []),
        writes := ((fun rd => (rd, TxnStatus.COMPLETED_C))
          (prefetch ⟨[], []⟩ [] (prefetch ⟨[], []⟩ [1] []))).1,
        status := ((fun rd => (rd, TxnStatus.COMPLETED_C))
          (prefetch ⟨[], []⟩ [] (prefetch ⟨[], []⟩ [1] []))).2 } :=
  c3_restart_amended ⟨[], [], 42, ⟨[], []⟩⟩
    ⟨7, [1], [], [], [], TxnStatus.COMPLETED_C, 3⟩ 11 ⟨[], []⟩
    (fun rd => (rd, TxnStatus.COMPLETED_C)) (by decide)

/-! ### C8 -/

/-- C8: in the shared/exclusive lock manager, for a transaction not already
queued on the key, `WriteLock` appends an EXCLUSIVE request and grants it iff
that request sits at the head of the key's queue, and `ReadLock` appends a
SHARED request and grants it iff no EXCLUSIVE request precedes it (the whole
pre-existing queue is SHARED). -/
theorem c8_lmb_grant_conditions (s : LockManager) (txn : TxnId) (key : Key)
    (h : txn ∉ (queueOf s key).map LockRequest.txn) :
    queueOf (lmbWriteLock s txn key).1 key =
      queueOf s key ++ [⟨LockMode.EXCLUSIVE, txn⟩] ∧
    ((lmbWriteLock s txn key).2 = true ↔
      (queueOf (lmbWriteLock s txn key).1 key).head? =
        some ⟨LockMode.EXCLUSIVE, txn⟩) ∧
    queueOf (lmbReadLock s txn key).1 key =
      queueOf s key ++ [⟨LockMode.SHARED, txn⟩] ∧
    ((lmbReadLock s txn key).2 = true ↔
      ∀ r ∈ queueOf s key, r.mode = LockMode.SHARED) := by
  refine ⟨?_, ?_, ?_, ?_⟩
  · simp only [lmbWriteLock, appendRequest_eq]
    split <;> simp [queueOf, alookup_aset]
  · simp only [lmbWriteLock, appendRequest_eq]
    rcases hq : queueOf s key with _ | ⟨r, rest⟩
    · simp [queueOf] at hq
      simp [hq, queueOf, alookup_aset]
    · simp [queueOf] at hq
      have hr : ¬r.txn = txn := by
        intro he
        exact h (by simp [queueOf, hq, he])
      simp [hq, queueOf, alookup_aset, hr]
      intro he
      exact hr (by rw [he])
  · simp only [lmbReadLock, appendRequest_eq]
    split <;> simp [queueOf, alookup_aset]
  · simp only [lmbReadLock, appendRequest_eq]
    have hcond :
        (((alookup s.lock_table key).getD [] ++
            [(⟨LockMode.SHARED, txn⟩ : LockRequest)]).any
          fun r => r.mode == LockMode.EXCLUSIVE) =
        ((queueOf s key).any fun r => r.mode == LockMode.EXCLUSIVE) := by
      simp [queueOf, List.any_append]
    rw [hcond]
    cases h2 : (queueOf s key).any fun r => r.mode == LockMode.EXCLUSIVE
    · simp [h2]
      intro r hr
      have := List.any_eq_false.mp h2 r hr
      exact lockMode_eq_shared.mp (by simpa using this)
    · simp [h2]
      obtain ⟨r, hr, hm⟩ := List.any_eq_true.mp h2
      have hrm : r.mode = LockMode.EXCLUSIVE := by simpa using hm
      exact ⟨r, hr, by simp [hrm]⟩

/-- Witness for `c8_lmb_grant_conditions`: transaction 3 against a queue that
already holds an EXCLUSIVE request of transaction 7 on key 1. -/
theorem c8_lmb_grant_conditions_witness :
    queueOf
        (lmbWriteLock ⟨[(1, [⟨LockMode.EXCLUSIVE, 7⟩])], [], []⟩ 3 1).1 1 =
      queueOf (⟨[(1, [⟨LockMode.EXCLUSIVE, 7⟩])], [], []⟩ : LockManager) 1 ++
        [⟨LockMode.EXCLUSIVE, 3⟩] ∧
    ((lmbWriteLock ⟨[(1, [⟨LockMode.EXCLUSIVE, 7⟩])], [], []⟩ 3 1).2 = true ↔
      (queueOf
          (lmbWriteLock ⟨[(1, [⟨LockMode.EXCLUSIVE, 7⟩])], [], []⟩ 3 1).1
          1).head? =
        some ⟨LockMode.EXCLUSIVE, 3⟩) ∧
    queueOf
        (lmbReadLock ⟨[(1, [⟨LockMode.EXCLUSIVE, 7⟩])], [], []⟩ 3 1).1 1 =
      queueOf (⟨[(1, [⟨LockMode.EXCLUSIVE, 7⟩])], [], []⟩ : LockManager) 1 ++
        [⟨LockMode.SHARED, 3⟩] ∧
    ((lmbReadLock ⟨[(1, [⟨LockMode.EXCLUSIVE, 7⟩])], [], []⟩ 3 1).2 = true ↔
      ∀ r ∈ queueOf (⟨[(1, [⟨LockMode.EXCLUSIVE, 7⟩])], [], []⟩ :
          LockManager) 1,
        r.mode = LockMode.SHARED) :=
  c8_lmb_grant_conditions ⟨[(1, [⟨LockMode.EXCLUSIVE, 7⟩])], [], []⟩ 3 1
    (by decide)

/-! ### C6 -/

/-- C6 counterexample: in the shared/exclusive variant, releasing a request
that is NOT at the head can decrement wait counters and append to the ready
list.  On queue `[SHARED 1, EXCLUSIVE 2, SHARED 3]` for key 5, releasing
transaction 2 (queued at index 1, not the head) fires the `SES` branch of
`LockManagerB::Release`: transaction 3's counter is decremented from 1 to 0
and 3 is appended to the ready list. -/
theorem c6_release_nonhead_counterexample :
    let s : LockManager :=
      ⟨[(5, [⟨LockMode.SHARED, 1⟩, ⟨LockMode.EXCLUSIVE, 2⟩,
        ⟨LockMode.SHARED, 3⟩])], [(2, 2), (3, 1)], []⟩
    findTxn (queueOf s 5) 2 = some 1 ∧
    (lmbRelease s 2 5).ready_txns = [3] ∧
    alookup (lmbRelease s 2 5).txn_waits 3 = some 0 := by
  decide

/-- C6 as amended: if the request removed by `Release(txn, key)` was not at
the head of the key's queue, then in variant A no wait counter changes and
nothing is appended to the ready list; the same holds in variant B except
when the removed request is EXCLUSIVE and immediately preceded and followed
by SHARED requests (the `SES` wakeup branch), which the extra hypothesis
rules out. -/
theorem c6_release_nonhead_amended (s : LockManager) (txn : TxnId) (key : Key)
    (i : Nat) (hfind : findTxn (queueOf s key) txn = some i) (hi : i ≠ 0)
    (hses : ¬((((queueOf s key)[i]?).map LockRequest.mode) =
          some LockMode.EXCLUSIVE ∧
        (((queueOf s key)[i-1]?).map LockRequest.mode) =
          some LockMode.SHARED ∧
        (((queueOf s key)[i+1]?).map LockRequest.mode) =
          some LockMode.SHARED)) :
    ((lmaRelease s txn key).txn_waits = s.txn_waits ∧
      (lmaRelease s txn key).ready_txns = s.ready_txns) ∧
    ((lmbRelease s txn key).txn_waits = s.txn_waits ∧
      (lmbRelease s txn key).ready_txns = s.ready_txns) := by
  constructor
  · have hhead := findTxn_head_ne hfind hi
    simp only [lmaRelease]
    rw [hfind]
    simp [hhead]
  · simp only [lmbRelease]
    rw [hfind]
    simp only [lmbWake]
    cases hnext : (queueOf s key)[i+1]? with
    | none => simp
    | some nxt =>
      have h1 : ¬(i = 0 ∧ nxt.mode = LockMode.EXCLUSIVE) := by
        rintro ⟨h0, -⟩
        exact hi h0
      have h2 : ¬sesCond (queueOf s key) i nxt := by
        rintro ⟨hcur, hcase⟩
        rcases hcase with ⟨h0, -⟩ | ⟨-, hprev, hnmode⟩
        · exact hi h0
        · exact hses ⟨hcur, hprev, by simp [hnext, hnmode]⟩
      simp [h1, h2]

/-- Witness for `c6_release_nonhead_amended`: releasing transaction 2, queued
second behind an EXCLUSIVE head, changes neither counters nor ready list in
either variant. -/
theorem c6_release_nonhead_amended_witness :
    ((lmaRelease
        ⟨[(5, [⟨LockMode.EXCLUSIVE, 1⟩, ⟨LockMode.EXCLUSIVE, 2⟩,
          ⟨LockMode.EXCLUSIVE, 3⟩])], [(2, 2)], []⟩ 2 5).txn_waits =
      [(2, 2)] ∧
      (lmaRelease
        ⟨[(5, [⟨LockMode.EXCLUSIVE, 1⟩, ⟨LockMode.EXCLUSIVE, 2⟩,
          ⟨LockMode.EXCLUSIVE, 3⟩])], [(2, 2)], []⟩ 2 5).ready_txns = []) ∧
    ((lmbRelease
        ⟨[(5, [⟨LockMode.EXCLUSIVE, 1⟩, ⟨LockMode.EXCLUSIVE, 2⟩,
          ⟨LockMode.EXCLUSIVE, 3⟩])], [(2, 2)], []⟩ 2 5).txn_waits =
      [(2, 2)] ∧
      (lmbRelease
        ⟨[(5, [⟨LockMode.EXCLUSIVE, 1⟩, ⟨LockMode.EXCLUSIVE, 2⟩,
          ⟨LockMode.EXCLUSIVE, 3⟩])], [(2, 2)], []⟩ 2 5).ready_txns = []) :=
  c6_release_nonhead_amended
    ⟨[(5, [⟨LockMode.EXCLUSIVE, 1⟩, ⟨LockMode.EXCLUSIVE, 2⟩,
      ⟨LockMode.EXCLUSIVE, 3⟩])], [(2, 2)], []⟩ 2 5 1 (by decide)
    (by decide) (by decide)

/-! ### C7 -/

theorem validate_fold_eq (t : Txn) (snap : List Txn) (v1 : Bool) :
    (snap.foldl
      (fun v u => t.writeset.foldl
        (fun v k => v && !(decide (k ∈ u.writeset ∨ k ∈ u.readset))) v) v1) =
    (v1 && snap.all fun u =>
      t.writeset.all fun k => !(decide (k ∈ u.writeset ∨ k ∈ u.readset))) := by
  have hinner : ∀ (v : Bool) (u : Txn),
      t.writeset.foldl
        (fun v k => v && !(decide (k ∈ u.writeset ∨ k ∈ u.readset))) v =
      (v && t.writeset.all
        fun k => !(decide (k ∈ u.writeset ∨ k ∈ u.readset))) :=
    fun v u => foldl_band _ _ v
  simp only [hinner]
  exact foldl_band _ snap v1

/-- C7: `ValidateTxn` on a finished transaction and an active-set snapshot
(which, per its entry assertion, excludes the transaction): a COMPLETED_A
transaction is marked ABORTED and posted with success without touching
storage; a COMPLETED_C transaction is posted with `verified`, which holds iff
no readset key's storage timestamp exceeds `occ_start_time` and the writeset
is disjoint from the readset ∪ writeset of every snapshot member, the writes
being applied exactly when `verified` holds. -/
theorem c7_validateTxn_spec (st : Storage) (t : Txn) (snap : List Txn)
    (now : Nat) (hmem : t ∉ snap) :
    (t.status = TxnStatus.COMPLETED_A →
      validateTxn st t snap now =
        some (st, { t with status := TxnStatus.ABORTED },
          ({ t with status := TxnStatus.ABORTED }, true))) ∧
    (t.status = TxnStatus.COMPLETED_C →
      ((∀ k ∈ t.readset, storageTimestamp st k ≤ t.occ_start_time) ∧
          ∀ u ∈ snap, ∀ k ∈ t.writeset, ¬(k ∈ u.writeset ∨ k ∈ u.readset)) →
        validateTxn st t snap now =
          some ((applyWrites st t now).1,
            { t with status := TxnStatus.COMMITTED },
            ({ t with status := TxnStatus.COMMITTED }, true))) ∧
    (t.status = TxnStatus.COMPLETED_C →
      ¬((∀ k ∈ t.readset, storageTimestamp st k ≤ t.occ_start_time) ∧
          ∀ u ∈ snap, ∀ k ∈ t.writeset, ¬(k ∈ u.writeset ∨ k ∈ u.readset)) →
        validateTxn st t snap now = some (st, t, (t, false))) := by
  have hv2 : ((t.readset.all
        fun k => decide (storageTimestamp st k ≤ t.occ_start_time)) &&
      (snap.all fun u =>
        t.writeset.all
          fun k => !(decide (k ∈ u.writeset ∨ k ∈ u.readset)))) = true ↔
      ((∀ k ∈ t.readset, storageTimestamp st k ≤ t.occ_start_time) ∧
        ∀ u ∈ snap, ∀ k ∈ t.writeset, ¬(k ∈ u.writeset ∨ k ∈ u.readset)) := by
    simp [List.all_eq_true]
  refine ⟨?_, ?_, ?_⟩
  · intro hA
    simp [validateTxn, hmem, hA]
  · intro hC hok
    simp only [validateTxn, hmem, hC]
    rw [validate_fold_eq]
    simp [hv2.mpr hok, applyWrites]
    exact ⟨hok.1, fun x hx y hy => not_or.mp (hok.2 x hx y hy)⟩
  · intro hC hok
    have hfalse :
        ¬(((t.readset.all
            fun k => decide (storageTimestamp st k ≤ t.occ_start_time)) &&
          (snap.all fun u =>
            t.writeset.all
              fun k => !(decide (k ∈ u.writeset ∨ k ∈ u.readset)))) = true) :=
      fun h => hok (hv2.mp h)
    have hfalse' := Bool.eq_false_iff.mpr hfalse
    simp only [validateTxn, hmem, hC]
    rw [validate_fold_eq]
    simp [hfalse']
    intro hA
    have hB : ¬∀ u ∈ snap, ∀ k ∈ t.writeset,
        ¬(k ∈ u.writeset ∨ k ∈ u.readset) :=
      fun hB => hok ⟨hA, hB⟩
    push_neg at hB
    obtain ⟨u, hu, k, hk, hor⟩ := hB
    exact ⟨u, hu, k, hk, fun hnw => hor.resolve_left hnw⟩

/-- Witness for `c7_validateTxn_spec`: an intentional abort, a transaction
that passes validation, and one whose readset key was overwritten after its
start, all against the empty snapshot. -/
theorem c7_validateTxn_spec_witness :
    validateTxn ⟨[(1, 5)], [(1, 2)]⟩
        ⟨9, [], [], [], [], TxnStatus.COMPLETED_A, 4⟩ [] 6 =
      some (⟨[(1, 5)], [(1, 2)]⟩,
        { (⟨9, [], [], [], [], TxnStatus.COMPLETED_A, 4⟩ : Txn) with
          status := TxnStatus.ABORTED },
        ({ (⟨9, [], [], [], [], TxnStatus.COMPLETED_A, 4⟩ : Txn) with
          status := TxnStatus.ABORTED }, true)) ∧
    validateTxn ⟨[(1, 5)], [(1, 2)]⟩
        ⟨9, [1], [2], [], [(2, 7)], TxnStatus.COMPLETED_C, 4⟩ [] 6 =
      some ((applyWrites ⟨[(1, 5)], [(1, 2)]⟩
          ⟨9, [1], [2], [], [(2, 7)], TxnStatus.COMPLETED_C, 4⟩ 6).1,
        { (⟨9, [1], [2], [], [(2, 7)], TxnStatus.COMPLETED_C, 4⟩ : Txn) with
          status := TxnStatus.COMMITTED },
        ({ (⟨9, [1], [2], [], [(2, 7)], TxnStatus.COMPLETED_C, 4⟩ : Txn) with
          status := TxnStatus.COMMITTED }, true)) ∧
    validateTxn ⟨[(1, 5)], [(1, 2)]⟩
        ⟨9, [1], [], [], [], TxnStatus.COMPLETED_C, 1⟩ [] 6 =
      some (⟨[(1, 5)], [(1, 2)]⟩,
        ⟨9, [1], [], [], [], TxnStatus.COMPLETED_C, 1⟩,
        (⟨9, [1], [], [], [], TxnStatus.COMPLETED_C, 1⟩, false)) :=
  ⟨(c7_validateTxn_spec ⟨[(1, 5)], [(1, 2)]⟩
      ⟨9, [], [], [], [], TxnStatus.COMPLETED_A, 4⟩ [] 6 (by decide)).1 rfl,
   (c7_validateTxn_spec ⟨[(1, 5)], [(1, 2)]⟩
      ⟨9, [1], [2], [], [(2, 7)], TxnStatus.COMPLETED_C, 4⟩ [] 6
      (by decide)).2.1 rfl (by decide),
   (c7_validateTxn_spec ⟨[(1, 5)], [(1, 2)]⟩
      ⟨9, [1], [], [], [], TxnStatus.COMPLETED_C, 1⟩ [] 6
      (by decide)).2.2 rfl (by decide)⟩

/-! ### C10 -/

/-- C10: `NewTxnRequest` (serialized by the processor mutex) assigns unique
ids in call order from the shared counter: a sequence of calls appends
transactions carrying consecutive ids starting at the current counter value,
so the ids are pairwise distinct and strictly increasing in call order, and a
later call always receives a strictly greater id than any earlier one. -/
theorem c10_unique_id_monotone (s : ProcState) (ts : List Txn) :
    (runRequests s ts).txn_requests.map Txn.unique_id =
      s.txn_requests.map Txn.unique_id ++
        List.range' s.next_unique_id ts.length ∧
    (runRequests s ts).next_unique_id = s.next_unique_id + ts.length ∧
    (List.range' s.next_unique_id ts.length).Pairwise (· < ·) := by
  refine ⟨?_, ?_, List.pairwise_lt_range' _ _⟩
  · induction ts generalizing s with
    | nil => simp [runRequests]
    | cons t ts ih =>
      have step : runRequests s (t :: ts) =
          runRequests (newTxnRequest s t) ts := by
        simp [runRequests]
      rw [step, ih]
      simp [newTxnRequest, List.range'_succ]
  · induction ts generalizing s with
    | nil => simp [runRequests]
    | cons t ts ih =>
      have step : runRequests s (t :: ts) =
          runRequests (newTxnRequest s t) ts := by
        simp [runRequests]
      rw [step, ih]
      simp [newTxnRequest]
      omega


/-! ### C9 -/

theorem nodup_of_coe_le {l₁ l₂ : List TxnId}
    (h : (↑l₁ : Multiset TxnId) ≤ ↑l₂) (h₂ : l₂.Nodup) : l₁.Nodup :=
  Multiset.coe_nodup.mp (Multiset.nodup_of_le h (Multiset.coe_nodup.mpr h₂))

theorem nodup_mid_ne {α : Type} {l₁ l₂ l₃ : List α} {t : α}
    (h : (l₁ ++ l₂ ++ (t :: l₃)).Nodup) : t ∉ l₁ ∧ t ∉ l₂ ∧ t ∉ l₃ := by
  rcases List.nodup_append.mp h with ⟨h12, h3, hdisj⟩
  refine ⟨?_, ?_, (List.nodup_cons.mp h3).1⟩
  · exact fun ht => hdisj (List.mem_append_left _ ht) (List.mem_cons_self _ _)
  · exact fun ht => hdisj (List.mem_append_right _ ht) (List.mem_cons_self _ _)

theorem locIds_split (s : SchedState) :
    s.locIds = (s.requests ++ s.executing ++ s.completed) ++
      (s.validating.map Prod.fst ++ s.validated.map Prod.fst) := by
  simp [SchedState.locIds]

/-- The pipeline invariant is preserved by every event of the parallel-OCC
pipeline. -/
theorem schedInv_step {s s' : SchedState} (hinv : SchedInv s)
    (hstep : PStep s s') : SchedInv s' := by
  obtain ⟨hn, han, hra, hsnap⟩ := hinv
  have hnREC : (s.requests ++ s.executing ++ s.completed).Nodup :=
    (locIds_split s ▸ hn).of_append_left
  cases hstep with
  | popRequest t rest h =>
    refine ⟨?_, han, ?_, hsnap⟩
    · refine Multiset.coe_nodup.mp
        (Multiset.nodup_of_le ?_ (Multiset.coe_nodup.mpr hn))
      refine le_of_eq ?_
      simp only [SchedState.locIds, h, ← Multiset.coe_add,
        ← Multiset.cons_coe, ← Multiset.singleton_add, Multiset.coe_nil]
      abel
    · intro u hu
      apply hra
      rw [h]
      simp only [List.mem_append, List.mem_cons,
        List.mem_singleton] at hu ⊢
      tauto
  | complete t l₁ l₂ h =>
    refine ⟨?_, han, ?_, hsnap⟩
    · refine Multiset.coe_nodup.mp
        (Multiset.nodup_of_le ?_ (Multiset.coe_nodup.mpr hn))
      refine le_of_eq ?_
      simp only [SchedState.locIds, h, ← Multiset.coe_add,
        ← Multiset.cons_coe, ← Multiset.singleton_add, Multiset.coe_nil]
      abel
    · intro u hu
      apply hra
      rw [h]
      simp only [List.mem_append, List.mem_cons,
        List.mem_singleton] at hu ⊢
      tauto
  | dispatch t rest h =>
    have htA : t ∉ s.active_set := hra t (by simp [h])
    rw [h] at hnREC
    obtain ⟨htR, htE, htrest⟩ := nodup_mid_ne hnREC
    refine ⟨?_, ?_, ?_, ?_⟩
    · refine Multiset.coe_nodup.mp
        (Multiset.nodup_of_le ?_ (Multiset.coe_nodup.mpr hn))
      refine le_of_eq ?_
      simp only [SchedState.locIds, dispatchValidation, h, List.map_append,
        List.map_cons, List.map_nil, ← Multiset.coe_add,
        ← Multiset.cons_coe, ← Multiset.singleton_add, Multiset.coe_nil]
      abel
    · simp only [dispatchValidation, insertIfAbsent, if_neg htA]
      simp [List.nodup_append, han, htA]
    · intro u hu
      simp only [dispatchValidation, insertIfAbsent, if_neg htA,
        List.mem_append, List.mem_singleton]
      simp only [List.mem_append] at hu
      rintro (huA | rfl)
      · refine hra u ?_ huA
        rw [h]
        simp only [List.mem_append, List.mem_cons] at hu ⊢
        tauto
      · tauto
    · intro p hp
      simp only [dispatchValidation, List.mem_append,
        List.mem_singleton] at hp
      rcases hp with hp | rfl
      · exact hsnap p hp
      · exact htA
  | dropCompleted t rest h =>
    refine ⟨?_, han, ?_, hsnap⟩
    · refine Multiset.coe_nodup.mp
        (Multiset.nodup_of_le ?_ (Multiset.coe_nodup.mpr hn))
      refine Multiset.le_iff_exists_add.mpr ⟨{t}, ?_⟩
      simp only [SchedState.locIds, h, ← Multiset.coe_add,
        ← Multiset.cons_coe, ← Multiset.singleton_add, Multiset.coe_nil]
      abel
    · intro u hu
      apply hra
      rw [h]
      simp only [List.mem_append, List.mem_cons] at hu ⊢
      tauto
  | finishVal t snap flag l₁ l₂ h =>
    refine ⟨?_, han, hra, ?_⟩
    · refine Multiset.coe_nodup.mp
        (Multiset.nodup_of_le ?_ (Multiset.coe_nodup.mpr hn))
      refine le_of_eq ?_
      simp only [SchedState.locIds, h, List.map_append, List.map_cons,
        List.map_nil, ← Multiset.coe_add, ← Multiset.cons_coe,
        ← Multiset.singleton_add, Multiset.coe_nil]
      abel
    · intro p hp
      refine hsnap p ?_
      rw [h]
      simp only [List.mem_append, List.mem_cons] at hp ⊢
      tauto
  | drainVal p rest h =>
    obtain ⟨t, flag⟩ := p
    cases flag
    · have hred : drainValidatedOne s (t, false) =
          { s with
            active_set := s.active_set.erase t,
            requests := s.requests ++ [t] } := by
        simp [drainValidatedOne]
      rw [hred]
      refine ⟨?_, han.erase t, ?_, hsnap⟩
      · refine Multiset.coe_nodup.mp
          (Multiset.nodup_of_le ?_ (Multiset.coe_nodup.mpr hn))
        refine le_of_eq ?_
        simp only [SchedState.locIds, h, List.map_cons, ← Multiset.coe_add,
          ← Multiset.cons_coe, ← Multiset.singleton_add, Multiset.coe_nil]
        abel
      · intro u hu
        simp only [List.mem_append, List.mem_singleton] at hu
        rcases hu with ((hu | rfl) | hu) | hu
        · exact fun hmem => hra u (by simp [hu])
            (List.mem_of_mem_erase hmem)
        · exact han.not_mem_erase
        · exact fun hmem => hra u (by simp [hu])
            (List.mem_of_mem_erase hmem)
        · exact fun hmem => hra u (by simp [hu])
            (List.mem_of_mem_erase hmem)
    · have hred : drainValidatedOne s (t, true) =
          { s with
            active_set := s.active_set.erase t,
            results := s.results ++ [t] } := by
        simp [drainValidatedOne]
      rw [hred]
      refine ⟨?_, han.erase t, ?_, hsnap⟩
      · refine Multiset.coe_nodup.mp
          (Multiset.nodup_of_le ?_ (Multiset.coe_nodup.mpr hn))
        refine Multiset.le_iff_exists_add.mpr ⟨{t}, ?_⟩
        simp only [SchedState.locIds, h, List.map_cons, ← Multiset.coe_add,
          ← Multiset.cons_coe, ← Multiset.singleton_add, Multiset.coe_nil]
        abel
      · intro u hu
        simp only [List.mem_append] at hu
        exact fun hmem => hra u (by simp [List.mem_append]; tauto)
          (List.mem_of_mem_erase hmem)
  | dropValidated p rest h =>
    refine ⟨?_, han, hra, hsnap⟩
    · refine Multiset.coe_nodup.mp
        (Multiset.nodup_of_le ?_ (Multiset.coe_nodup.mpr hn))
      refine Multiset.le_iff_exists_add.mpr ⟨{p.1}, ?_⟩
      simp only [SchedState.locIds, h, List.map_cons, ← Multiset.coe_add,
        ← Multiset.cons_coe, ← Multiset.singleton_add, Multiset.coe_nil]
      abel

/-- C9: in every state the parallel-OCC pipeline can reach from a state
satisfying the pipeline invariant (in particular from any fresh processor
state), every validation task holds a snapshot that excludes its own
transaction: the scheduler copies `active_set_` before inserting the
transaction and erases the transaction before any re-enqueue, so the
assertion at the entry of `ValidateTxn` never fails, including on
revalidation after a restart. -/
theorem c9_snapshot_excludes_self (s0 s : SchedState) (h0 : SchedInv s0)
    (h : Relation.ReflTransGen PStep s0 s) :
    ∀ p ∈ s.validating, p.1 ∉ p.2 := by
  have hinv : SchedInv s := by
    induction h with
    | refl => exact h0
    | tail _ hstep ih => exact schedInv_step ih hstep
  unfold SchedInv at hinv
  exact hinv.2.2.2

/-- Witness for `c9_snapshot_excludes_self`: one dispatch step from a state
whose completion queue holds transaction 1 yields a validation task whose
snapshot excludes transaction 1. -/
theorem c9_snapshot_excludes_self_witness :
    ((1 : TxnId), ([] : List TxnId)).1 ∉
      ((1 : TxnId), ([] : List TxnId)).2 :=
  c9_snapshot_excludes_self ⟨[], [], [1], [], [], [], []⟩
    ⟨[], [], [], [1], [(1, [])], [], []⟩ (by decide)
    (Relation.ReflTransGen.single (PStep.dispatch _ 1 [] rfl))
    (1, []) (by decide)

end TxnCC
